import Mathlib

/-!
Verification of the adcdutil media conversion pipeline (adcdutil.py).

The Python program is embedded shallowly: every filesystem effect is
explicit state passing over an association list from paths to byte lists,
and every observable action (collision check, file write, external tool
invocation, file removal) is recorded in an event trace.  External tools
(hetupd, dasdcopy, unzip) are modelled by an environment of oracles: a
predicate saying whether a given command line exits zero, and the bytes
the tool writes to its output path on success.  `sys.exit(1)` and raised
exceptions are modelled with `Except`.
-/

deriving instance DecidableEq for Except

namespace Adcdutil

abbrev Bytes := List Nat

/-- The filesystem: an association list from path to file content. -/
abbrev FS := List (String × Bytes)

/-- An ISO image: a mapping from iso paths to file content. -/
abbrev Iso := List (String × Bytes)

def fsExists : FS → String → Bool
  | [], _ => false
  | e :: tl, p => if e.1 = p then true else fsExists tl p

def fsGet : FS → String → Option Bytes
  | [], _ => none
  | e :: tl, p => if e.1 = p then some e.2 else fsGet tl p

/-- Writing replaces any entry for the path and records the new content. -/
def fsWrite : FS → String → Bytes → FS
  | [], p, b => [(p, b)]
  | e :: tl, p, b => if e.1 = p then fsWrite tl p b else e :: fsWrite tl p b

def fsRemove : FS → String → FS
  | [], _ => []
  | e :: tl, p => if e.1 = p then fsRemove tl p else e :: fsRemove tl p

/-- Observable events of a run, in order. -/
inductive Ev where
  | check (path : String) (overwrite : Bool)
  | write (path : String)
  | run (cmd : List String)
  | remove (path : String)
deriving DecidableEq

/-- Errors: `pathExists` models the sys.exit(1) in checkPath, `toolFailed`
models subprocess.CalledProcessError from check=True, `isoMissing` models
PyCdlibInvalidInput escaping both lookup attempts, `noImages` models the
sys.exit(1) when extraction yields nothing. -/
inductive Err where
  | pathExists (path : String)
  | toolFailed (cmd : List String)
  | isoMissing (path : String)
  | noImages
deriving DecidableEq

/-- Program state: the filesystem plus the trace of events so far. -/
structure St where
  fs : FS
  tr : List Ev
deriving DecidableEq

def stCheck (s : St) (path : String) (overwrite : Bool) : St :=
  { s with tr := s.tr ++ [Ev.check path overwrite] }

def stWrite (s : St) (path : String) (b : Bytes) : St :=
  { fs := fsWrite s.fs path b, tr := s.tr ++ [Ev.write path] }

def stRemove (s : St) (path : String) : St :=
  { fs := fsRemove s.fs path, tr := s.tr ++ [Ev.remove path] }

def stRun (s : St) (cmd : List String) : St :=
  { s with tr := s.tr ++ [Ev.run cmd] }

/-- One archive member: its stored name, the bytes the in-process reader
yields (`none` models zipfile raising NotImplementedError for an
unsupported compression method), and the bytes the `unzip -p` subprocess
emits on stdout (empty when unzip itself cannot read the entry, since its
exit status is never checked and stderr is discarded). -/
structure ZEntry where
  name : String
  inProc : Option Bytes
  subproc : Bytes
deriving DecidableEq

/-- An archive: whether zf.testzip() passes without NotImplementedError,
and the members in stored order. -/
structure ZArchive where
  probeOk : Bool
  entries : List ZEntry
deriving DecidableEq

/-- The external world: the working directory, whether a command line
exits zero, the bytes a successful tool writes to its output path, and
how archive bytes parse as a ZIP. -/
structure Env where
  cwd : String
  runOk : List String → Bool
  outBytes : List String → Bytes
  parseZip : Bytes → ZArchive

/-- adcdutil.py lines 54-65: refuse to clobber an existing path unless
overwrite is set; report true when an allowed overwrite will happen. -/
def checkPath (s : St) (path : String) (overwrite : Bool) : Except Err Bool × St :=
  let s1 := stCheck s path overwrite
  if fsExists s.fs path then
    if overwrite then (Except.ok true, s1)
    else (Except.error (Err.pathExists path), s1)
  else (Except.ok false, s1)

/-- subprocess.run(cmd, check=True) for a tool that writes outPath on
success; on nonzero exit CalledProcessError propagates and nothing is
written. -/
def runTool (env : Env) (cmd : List String) (outPath : String) (s : St) :
    Except Err Unit × St :=
  let s1 := stRun s cmd
  if env.runOk cmd then (Except.ok (), stWrite s1 outPath (env.outBytes cmd))
  else (Except.error (Err.toolFailed cmd), s1)

/-- Split a character list at the last occurrence of c, if any. -/
def splitLast (c : Char) : List Char → Option (List Char × List Char)
  | [] => none
  | x :: xs =>
    match splitLast c xs with
    | some (b, a) => some (x :: b, a)
    | none => if x = c then some ([], xs) else none

/-- os.path.basename: the part after the last slash. -/
def basename (p : String) : String :=
  match splitLast '/' p.toList with
  | some (_, b) => String.mk b
  | none => p

/-- os.path.splitext(p)[0]: everything up to the last dot of the base
name, where leading dots of the base name never start an extension. -/
def splitextStem (p : String) : String :=
  let cs := p.toList
  let dirBase : List Char × List Char :=
    match splitLast '/' cs with
    | some (d, b) => (d ++ ['/'], b)
    | none => ([], cs)
  let lead := dirBase.2.takeWhile (fun c => c = '.')
  let rest := dirBase.2.drop lead.length
  match splitLast '.' rest with
  | some (stem, _) => String.mk (dirBase.1 ++ lead ++ stem)
  | none => p

/-- images[0].split("_")[0]: the prefix before the first underscore. -/
def splitUnderscoreHead (s : String) : String :=
  String.mk (s.toList.takeWhile (fun c => ¬ (c = '_')))

def strStartsWith : List Char → List Char → Bool
  | [], _ => true
  | _ :: _, [] => false
  | a :: as, b :: bs => a = b && strStartsWith as bs

/-- Python `needle in hay` on character lists. -/
def strContainsSub : List Char → List Char → Bool
  | needle, [] => needle.isEmpty
  | needle, c :: cs => strStartsWith needle (c :: cs) || strContainsSub needle cs

/-- Python str.lower(), applied per character. -/
def strToLower (s : String) : String :=
  String.mk (s.toList.map Char.toLower)

/-- Python str.upper(), applied per character. -/
def strToUpper (s : String) : String :=
  String.mk (s.toList.map Char.toUpper)

/-- Code-point lexicographic string comparison, Python string `<=`. -/
def charListLe : List Char → List Char → Bool
  | [], _ => true
  | _ :: _, [] => false
  | a :: as, b :: bs => if a = b then charListLe as bs else decide (a < b)

def strLeB (a b : String) : Bool :=
  charListLe a.toList b.toList

/-- adcdutil.py line 36: ".{extension}" in f.lower(). -/
def matchExt (extension f : String) : Bool :=
  strContainsSub ("." ++ extension).toList (strToLower f).toList

/-- The found dict of walkISO: append v under key k, creating the key at
the end on first sight (Python dicts preserve insertion order). -/
def dictAppend : List (String × List String) → String → String → List (String × List String)
  | [], k, v => [(k, [v])]
  | e :: rest, k, v =>
    if e.1 = k then (e.1, e.2 ++ [v]) :: rest else e :: dictAppend rest k v

def dictGetD : List (String × List String) → String → List String
  | [], _ => []
  | e :: rest, k => if e.1 = k then e.2 else dictGetD rest k

/-- adcdutil.py lines 34-40, inner loop over the files of one root. -/
def walkFiles (extension parent : String) :
    List (String × List String) → List String → List (String × List String)
  | found, [] => found
  | found, f :: fs =>
    if matchExt extension f then
      walkFiles extension parent (dictAppend found parent (splitextStem f)) fs
    else walkFiles extension parent found fs

/-- adcdutil.py lines 34-40, outer loop over walk results. -/
def walkRoots (extension : String) :
    List (String × List String) → List (String × List String) → List (String × List String)
  | found, [] => found
  | found, rf :: rest =>
    walkRoots extension (walkFiles extension (basename rf.1) found rf.2) rest

/-- adcdutil.py lines 30-43: the walk is given as the list of
(root, files) pairs iso.walk produced. -/
def walkISO (walkEntries : List (String × List String)) (extension : String) :
    List (String × List String) :=
  walkRoots extension [] walkEntries

/-- Modelled from the spec: the flat list of (parent dir base name, file
stem) pairs for matching files, in walk order, used to characterize the
catalog walkISO builds. -/
def flatMatches : List (String × List String) → String → List (String × String)
  | [], _ => []
  | rf :: rest, ext =>
    ((rf.2.filter (fun f => matchExt ext f)).map
      (fun f => (basename rf.1, splitextStem f))) ++ flatMatches rest ext

/-- adcdutil.py lines 68-82, the generator consumed to completion.  Each
entry is first opened in process; when zf.open raises NotImplementedError
the except branch re-iterates the full contents list through `unzip -p`. -/
def subprocEntries (entries : List ZEntry) : List (String × Bytes) :=
  entries.map (fun e => (e.name, e.subproc))

def extractZipLoop (all : List ZEntry) : List ZEntry → List (String × Bytes)
  | [] => []
  | e :: rest =>
    match e.inProc with
    | some b => (e.name, b) :: extractZipLoop all rest
    | none => subprocEntries all

def extractZip (ar : ZArchive) : List (String × Bytes) :=
  if ar.probeOk then extractZipLoop ar.entries ar.entries
  else subprocEntries ar.entries

/-- adcdutil.py lines 85-105. -/
def getFileFromIso (iso : Iso) (dist filename : String) (dest : Option String)
    (overwrite : Bool) (env : Env) (s : St) : Except Err String × St :=
  let destD := dest.getD env.cwd
  let destFilename := destD ++ "/" ++ filename
  match checkPath s destFilename overwrite with
  | (Except.error e, s1) => (Except.error e, s1)
  | (Except.ok b, s1) =>
    let s2 := if b then stRemove s1 destFilename else s1
    match fsGet iso ("/" ++ dist ++ "/" ++ filename) with
    | some content => (Except.ok destFilename, stWrite s2 destFilename content)
    | none =>
      match fsGet iso ("/" ++ dist ++ "/" ++ filename ++ ";1") with
      | some content => (Except.ok destFilename, stWrite s2 destFilename content)
      | none => (Except.error (Err.isoMissing destFilename), s2)

/-- adcdutil.py lines 115-122. -/
def hetupdCmd (compression tapeIn tapeOut : String) : List String :=
  ["hetupd"]
    ++ (if compression = "zlib" then ["-z"]
        else if compression = "bzip2" then ["-b"]
        else if compression = "none" then ["-d"] else [])
    ++ [tapeIn, tapeOut]

/-- adcdutil.py lines 108-130. -/
def convertTape (env : Env) (iso : Iso) (dist tape compression : String)
    (dest : Option String) (overwrite : Bool) (s : St) : Except Err String × St :=
  let destD := dest.getD env.cwd
  match getFileFromIso iso dist (tape ++ ".IPL") dest overwrite env s with
  | (Except.error e, s1) => (Except.error e, s1)
  | (Except.ok tapeIn, s1) =>
    let tapeOut := destD ++ "/" ++ tape ++ ".het"
    match runTool env (hetupdCmd compression tapeIn tapeOut) tapeOut s1 with
    | (Except.error e, s2) => (Except.error e, s2)
    | (Except.ok _, s2) => (Except.ok tapeOut, stRemove s2 tapeIn)

/-- adcdutil.py lines 142-148, the loop writing each archive entry. -/
def extractLoop (destD : String) (overwrite : Bool) :
    List (String × Bytes) → List String → St → Except Err (List String) × St
  | [], images, s => (Except.ok images, s)
  | (fname, content) :: rest, images, s =>
    let image := destD ++ "/" ++ basename fname
    match checkPath s image overwrite with
    | (Except.error e, s1) => (Except.error e, s1)
    | (Except.ok _, s1) =>
      extractLoop destD overwrite rest (images ++ [image]) (stWrite s1 image content)

/-- Python sorted() on paths (code-point lexicographic). -/
def pySorted (l : List String) : List String :=
  List.insertionSort (fun a b => strLeB a b = true) l

/-- adcdutil.py lines 133-152. -/
def extractVolume (env : Env) (iso : Iso) (dist volume : String)
    (dest : Option String) (overwrite : Bool) (s : St) : Except Err (List String) × St :=
  let destD := dest.getD env.cwd
  match getFileFromIso iso dist (volume ++ ".ZIP") dest overwrite env s with
  | (Except.error e, s1) => (Except.error e, s1)
  | (Except.ok zipFilename, s1) =>
    let ar := env.parseZip ((fsGet s1.fs zipFilename).getD [])
    match extractLoop destD overwrite (extractZip ar) [] s1 with
    | (Except.error e, s2) => (Except.error e, s2)
    | (Except.ok images, s2) => (Except.ok (pySorted images), stRemove s2 zipFilename)

/-- adcdutil.py lines 217-220. -/
def dasdcopyJoinCmd (r : Bool) (firstImage volIn : String) : List String :=
  ["dasdcopy", "-q"] ++ (if r then ["-r"] else []) ++ ["-lfs", firstImage, volIn]

/-- adcdutil.py lines 209-228: the multi-fragment join branch. -/
def joinImages (env : Env) (images : List String) (force : Bool) (s : St) :
    Except Err String × St :=
  match images with
  | [] => (Except.error Err.noImages, s)
  | first :: _ =>
    let volIn := splitUnderscoreHead first ++ ".img"
    match checkPath s volIn force with
    | (Except.error e, s1) => (Except.error e, s1)
    | (Except.ok b, s1) =>
      match runTool env (dasdcopyJoinCmd b first volIn) volIn s1 with
      | (Except.error e, s2) => (Except.error e, s2)
      | (Except.ok _, s2) => (Except.ok volIn, images.foldl stRemove s2)

/-- adcdutil.py lines 233-242. -/
def dasdcopyConvertCmd (r : Bool) (compression outputFormat volIn volOut : String) :
    List String :=
  ["dasdcopy", "-q"] ++ (if r then ["-r"] else [])
    ++ (if compression = "zlib" then ["-z"]
        else if compression = "bzip2" then ["-bz2"]
        else if compression = "none" then ["-0"] else [])
    ++ ["-o", strToUpper outputFormat, volIn, volOut]

/-- adcdutil.py lines 230-246: the final conversion of one volume image. -/
def convertImage (env : Env) (compression outputFormat volIn : String)
    (force : Bool) (s : St) : Except Err String × St :=
  let volOut := splitextStem volIn ++ "." ++ strToLower outputFormat
  match checkPath s volOut force with
  | (Except.error e, s1) => (Except.error e, s1)
  | (Except.ok b, s1) =>
    match runTool env (dasdcopyConvertCmd b compression outputFormat volIn volOut) volOut s1 with
    | (Except.error e, s2) => (Except.error e, s2)
    | (Except.ok _, s2) => (Except.ok volOut, stRemove s2 volIn)

/-- adcdutil.py lines 199-246: the body of the per-volume loop of the
convert command. -/
def convertVolumeStep (env : Env) (iso : Iso) (dist vol compression outputFormat : String)
    (destination : Option String) (force : Bool) (s : St) : Except Err String × St :=
  match extractVolume env iso dist vol destination force s with
  | (Except.error e, s1) => (Except.error e, s1)
  | (Except.ok images, s1) =>
    match images with
    | [] => (Except.error Err.noImages, s1)
    | first :: rest =>
      match (if rest.isEmpty then (Except.ok first, s1)
             else joinImages env (first :: rest) force s1) with
      | (Except.error e, s2) => (Except.error e, s2)
      | (Except.ok volIn, s2) => convertImage env compression outputFormat volIn force s2

/-- True when every write event in the trace is preceded by a check event
on the same path, given an initial set of already-checked paths. -/
def writesCheckedAux (checked : List String) : List Ev → Bool
  | [] => true
  | Ev.check p _ :: rest => writesCheckedAux (p :: checked) rest
  | Ev.write p :: rest => checked.contains p && writesCheckedAux checked rest
  | Ev.run _ :: rest => writesCheckedAux checked rest
  | Ev.remove _ :: rest => writesCheckedAux checked rest

def writesChecked (tr : List Ev) : Bool :=
  writesCheckedAux [] tr

/-- The checked paths accumulated by scanning a trace. -/
def addChecks (checked : List String) : List Ev → List String
  | [] => checked
  | Ev.check p _ :: rest => addChecks (p :: checked) rest
  | _ :: rest => addChecks checked rest

section Lemmas

theorem fsExists_fsWrite_self (fs : FS) (p : String) (b : Bytes) :
    fsExists (fsWrite fs p b) p = true := by
  induction fs with
  | nil => simp [fsExists, fsWrite]
  | cons e tl ih =>
    by_cases h : e.1 = p
    · simpa [fsExists, fsWrite, h] using ih
    · simpa [fsExists, fsWrite, h] using ih

theorem fsGet_fsWrite_self (fs : FS) (p : String) (b : Bytes) :
    fsGet (fsWrite fs p b) p = some b := by
  induction fs with
  | nil => simp [fsGet, fsWrite]
  | cons e tl ih =>
    by_cases h : e.1 = p
    · simpa [fsGet, fsWrite, h] using ih
    · simpa [fsGet, fsWrite, h] using ih

theorem fsGet_fsWrite_ne (fs : FS) (p q : String) (b : Bytes) (h : p ≠ q) :
    fsGet (fsWrite fs q b) p = fsGet fs p := by
  have hqp : ¬ (q = p) := fun hc => h hc.symm
  induction fs with
  | nil => simp [fsGet, fsWrite, hqp]
  | cons e tl ih =>
    by_cases he : e.1 = q
    · simpa [fsGet, fsWrite, he, hqp] using ih
    · by_cases hep : e.1 = p
      · simp [fsGet, fsWrite, he, hep, h, hqp]
      · simpa [fsGet, fsWrite, he, hep, h, hqp] using ih

theorem fsExists_fsWrite_ne (fs : FS) (p q : String) (b : Bytes) (h : p ≠ q) :
    fsExists (fsWrite fs q b) p = fsExists fs p := by
  have hqp : ¬ (q = p) := fun hc => h hc.symm
  induction fs with
  | nil => simp [fsExists, fsWrite, hqp]
  | cons e tl ih =>
    by_cases he : e.1 = q
    · simpa [fsExists, fsWrite, he, hqp] using ih
    · by_cases hep : e.1 = p
      · simp [fsExists, fsWrite, he, hep, h, hqp]
      · simpa [fsExists, fsWrite, he, hep, h, hqp] using ih

theorem fsExists_fsRemove (fs : FS) (q p : String) :
    fsExists (fsRemove fs q) p = (!(p == q) && fsExists fs p) := by
  induction fs with
  | nil => simp [fsExists, fsRemove]
  | cons e tl ih =>
    by_cases hpq : p = q
    · by_cases he : e.1 = q
      · simpa [fsExists, fsRemove, he, hpq] using ih
      · simpa [fsExists, fsRemove, he, hpq, fun hc => he (hpq ▸ hc : e.1 = q)] using ih
    · have hqp : ¬ (q = p) := fun hc => hpq hc.symm
      by_cases he : e.1 = q
      · simpa [fsExists, fsRemove, he, hpq, hqp] using ih
      · by_cases hep : e.1 = p
        · simp [fsExists, fsRemove, he, hep, hpq, hqp]
        · simpa [fsExists, fsRemove, he, hep, hpq, hqp] using ih

theorem fsExists_fsRemove_self (fs : FS) (p : String) :
    fsExists (fsRemove fs p) p = false := by
  simp [fsExists_fsRemove]

theorem fsExists_fsRemove_ne (fs : FS) (q p : String) (h : p ≠ q) :
    fsExists (fsRemove fs q) p = fsExists fs p := by
  simp [fsExists_fsRemove, h]

theorem fsGet_fsRemove_ne (fs : FS) (q p : String) (h : p ≠ q) :
    fsGet (fsRemove fs q) p = fsGet fs p := by
  have hqp : ¬ (q = p) := fun hc => h hc.symm
  induction fs with
  | nil => simp [fsGet, fsRemove]
  | cons e tl ih =>
    by_cases he : e.1 = q
    · simpa [fsGet, fsRemove, he, hqp] using ih
    · by_cases hep : e.1 = p
      · simp [fsGet, fsRemove, he, hep, h]
      · simpa [fsGet, fsRemove, he, hep] using ih

theorem foldl_stRemove_tr (l : List String) :
    ∀ s : St, (l.foldl stRemove s).tr = s.tr ++ l.map Ev.remove := by
  induction l with
  | nil => intro s; simp
  | cons q tl ih => intro s; simp [List.foldl_cons, ih, stRemove]

theorem foldl_stRemove_absent (l : List String) :
    ∀ s : St, ∀ p, fsExists s.fs p = false →
      fsExists ((l.foldl stRemove s).fs) p = false := by
  induction l with
  | nil => intro s p h; simpa using h
  | cons q tl ih =>
    intro s p h
    refine ih _ p ?_
    simp [stRemove, fsExists_fsRemove, h]

theorem foldl_stRemove_mem (l : List String) :
    ∀ s : St, ∀ p, p ∈ l → fsExists ((l.foldl stRemove s).fs) p = false := by
  induction l with
  | nil => intro s p h; cases h
  | cons q tl ih =>
    intro s p h
    rcases List.mem_cons.mp h with h | h
    · subst h
      refine foldl_stRemove_absent tl _ p ?_
      simp [stRemove, fsExists_fsRemove_self]
    · exact ih _ p h

theorem addChecks_append (t1 t2 : List Ev) :
    ∀ c, addChecks c (t1 ++ t2) = addChecks (addChecks c t1) t2 := by
  induction t1 with
  | nil => intro c; simp [addChecks]
  | cons e t ih =>
    intro c
    cases e with
    | check p o => simp [addChecks, ih]
    | write p => simp [addChecks, ih]
    | run cmd => simp [addChecks, ih]
    | remove p => simp [addChecks, ih]

theorem wca_append (t1 t2 : List Ev) :
    ∀ c, writesCheckedAux c (t1 ++ t2) =
      (writesCheckedAux c t1 && writesCheckedAux (addChecks c t1) t2) := by
  induction t1 with
  | nil => intro c; simp [writesCheckedAux, addChecks]
  | cons e t ih =>
    intro c
    cases e with
    | check p o => simp [writesCheckedAux, addChecks, ih]
    | write p => simp [writesCheckedAux, addChecks, ih, Bool.and_assoc]
    | run cmd => simp [writesCheckedAux, addChecks, ih]
    | remove p => simp [writesCheckedAux, addChecks, ih]

theorem contains_addChecks (t : List Ev) :
    ∀ c x, c.contains x = true → (addChecks c t).contains x = true := by
  induction t with
  | nil => intro c x h; simpa [addChecks] using h
  | cons e t ih =>
    intro c x h
    cases e with
    | check p o =>
      refine ih _ x ?_
      have hx : x ∈ c := by simpa using h
      have hx2 : x ∈ p :: c := List.mem_cons_of_mem _ hx
      simpa using hx2
    | write p => exact ih _ x h
    | run cmd => exact ih _ x h
    | remove p => exact ih _ x h

theorem wca_append_check (c : List String) (t : List Ev) (p : String) (o : Bool) :
    writesCheckedAux c (t ++ [Ev.check p o]) = writesCheckedAux c t := by
  rw [wca_append]; simp [writesCheckedAux]

theorem wca_append_run (c : List String) (t : List Ev) (cmd : List String) :
    writesCheckedAux c (t ++ [Ev.run cmd]) = writesCheckedAux c t := by
  rw [wca_append]; simp [writesCheckedAux]

theorem wca_append_remove (c : List String) (t : List Ev) (p : String) :
    writesCheckedAux c (t ++ [Ev.remove p]) = writesCheckedAux c t := by
  rw [wca_append]; simp [writesCheckedAux]

theorem wca_append_write (c : List String) (t : List Ev) (p : String) :
    writesCheckedAux c (t ++ [Ev.write p]) =
      (writesCheckedAux c t && (addChecks c t).contains p) := by
  rw [wca_append]; simp [writesCheckedAux]

theorem addChecks_append_check (c : List String) (t : List Ev) (p : String) (o : Bool) :
    addChecks c (t ++ [Ev.check p o]) = p :: addChecks c t := by
  rw [addChecks_append]; rfl

theorem addChecks_append_run (c : List String) (t : List Ev) (cmd : List String) :
    addChecks c (t ++ [Ev.run cmd]) = addChecks c t := by
  rw [addChecks_append]; rfl

theorem addChecks_append_remove (c : List String) (t : List Ev) (p : String) :
    addChecks c (t ++ [Ev.remove p]) = addChecks c t := by
  rw [addChecks_append]; rfl

theorem addChecks_append_write (c : List String) (t : List Ev) (p : String) :
    addChecks c (t ++ [Ev.write p]) = addChecks c t := by
  rw [addChecks_append]; rfl

theorem contains_cons_self (c : List String) (p : String) : (p :: c).contains p = true := by
  simp [List.contains_cons]

theorem wca_removes (l : List String) :
    ∀ c, writesCheckedAux c (l.map Ev.remove) = true := by
  induction l with
  | nil => intro c; rfl
  | cons q tl ih => intro c; simpa [writesCheckedAux] using ih c

theorem checkPath_snd (s : St) (p : String) (o : Bool) :
    (checkPath s p o).2 = stCheck s p o := by
  cases o <;> by_cases h1 : fsExists s.fs p = true <;> simp [checkPath, h1]

theorem checkPath_fs (s : St) (p : String) (o : Bool) :
    ((checkPath s p o).2).fs = s.fs := by
  rw [checkPath_snd]; rfl

theorem checkPath_pass (s : St) (p : String) (o : Bool)
    (hpass : fsExists s.fs p = true → o = true) :
    checkPath s p o = (Except.ok (fsExists s.fs p && o), stCheck s p o) := by
  by_cases h1 : fsExists s.fs p = true
  · simp [checkPath, h1, hpass h1]
  · replace h1 : fsExists s.fs p = false := by simpa using h1
    simp [checkPath, h1]

theorem checkPath_fail (s : St) (p : String) (h1 : fsExists s.fs p = true) :
    checkPath s p false = (Except.error (Err.pathExists p), stCheck s p false) := by
  simp [checkPath, h1]

theorem runTool_ok (env : Env) (cmd : List String) (outPath : String) (s : St)
    (h : env.runOk cmd = true) :
    runTool env cmd outPath s =
      (Except.ok (), stWrite (stRun s cmd) outPath (env.outBytes cmd)) := by
  simp [runTool, h]

theorem runTool_fail (env : Env) (cmd : List String) (outPath : String) (s : St)
    (h : env.runOk cmd = false) :
    runTool env cmd outPath s = (Except.error (Err.toolFailed cmd), stRun s cmd) := by
  simp [runTool, h]

theorem wc_checkPath (s : St) (p : String) (o : Bool) (c : List String)
    (h : writesCheckedAux c s.tr = true) :
    writesCheckedAux c (((checkPath s p o).2).tr) = true := by
  rw [checkPath_snd]
  simpa [stCheck, wca_append_check] using h

theorem wc_runTool (env : Env) (cmd : List String) (outPath : String) (s : St)
    (c : List String) (h : writesCheckedAux c s.tr = true)
    (hc : (addChecks c s.tr).contains outPath = true) :
    writesCheckedAux c (((runTool env cmd outPath s).2).tr) = true := by
  by_cases hr : env.runOk cmd = true
  · rw [runTool_ok env cmd outPath s hr]
    have hsplit : (stWrite (stRun s cmd) outPath (env.outBytes cmd)).tr
        = (s.tr ++ [Ev.run cmd]) ++ [Ev.write outPath] := rfl
    rw [hsplit, wca_append_write, wca_append_run, addChecks_append_run, h, hc]
    rfl
  · replace hr : env.runOk cmd = false := by simpa using hr
    rw [runTool_fail env cmd outPath s hr]
    simpa [stRun, wca_append_run] using h

theorem wc_getFileFromIso (iso : Iso) (dist fn : String) (dest : Option String)
    (o : Bool) (env : Env) (s : St) (c : List String)
    (h : writesCheckedAux c s.tr = true) :
    writesCheckedAux c (((getFileFromIso iso dist fn dest o env s).2).tr) = true := by
  unfold getFileFromIso
  try dsimp only
  cases hcp : checkPath s ((dest.getD env.cwd) ++ "/" ++ fn) o with
  | mk r1 s1 =>
    have hs1 : s1 = stCheck s ((dest.getD env.cwd) ++ "/" ++ fn) o := by
      have h2 := checkPath_snd s ((dest.getD env.cwd) ++ "/" ++ fn) o
      rw [hcp] at h2; exact h2
    subst hs1
    try rw [hcp]
    cases r1 with
    | error e =>
      simpa [stCheck, wca_append_check] using h
    | ok b =>
      try dsimp only
      cases hl1 : fsGet iso ("/" ++ dist ++ "/" ++ fn) with
      | some content =>
        cases b <;>
          simp [stWrite, stRemove, stCheck, wca_append, writesCheckedAux, addChecks, h]
      | none =>
        cases hl2 : fsGet iso ("/" ++ dist ++ "/" ++ fn ++ ";1") with
        | some content =>
          cases b <;>
            simp [stWrite, stRemove, stCheck, wca_append, writesCheckedAux, addChecks, h]
        | none =>
          cases b <;>
            simp [stRemove, stCheck, wca_append, writesCheckedAux, addChecks, h]

theorem wc_extractLoop (destD : String) (o : Bool) (c : List String) :
    ∀ (pairs : List (String × Bytes)) (images : List String) (s : St),
      writesCheckedAux c s.tr = true →
      writesCheckedAux c (((extractLoop destD o pairs images s).2).tr) = true := by
  intro pairs
  induction pairs with
  | nil => intro images s h; simpa [extractLoop] using h
  | cons pr rest ih =>
    intro images s h
    obtain ⟨fname, content⟩ := pr
    unfold extractLoop
    try dsimp only
    cases hcp : checkPath s (destD ++ "/" ++ basename fname) o with
    | mk r1 s1 =>
      have hs1 : s1 = stCheck s (destD ++ "/" ++ basename fname) o := by
        have h2 := checkPath_snd s (destD ++ "/" ++ basename fname) o
        rw [hcp] at h2; exact h2
      subst hs1
      try rw [hcp]
      cases r1 with
      | error e =>
        simpa [stCheck, wca_append_check] using h
      | ok b =>
        try dsimp only
        refine ih _ _ ?_
        simp [stWrite, stCheck, wca_append, writesCheckedAux, addChecks, h]

theorem wc_extractVolume (env : Env) (iso : Iso) (dist volume : String)
    (dest : Option String) (o : Bool) (s : St) (c : List String)
    (h : writesCheckedAux c s.tr = true) :
    writesCheckedAux c (((extractVolume env iso dist volume dest o s).2).tr) = true := by
  unfold extractVolume
  try dsimp only
  cases hgf : getFileFromIso iso dist (volume ++ ".ZIP") dest o env s with
  | mk r1 s1 =>
    have hw1 : writesCheckedAux c s1.tr = true := by
      have h2 := wc_getFileFromIso iso dist (volume ++ ".ZIP") dest o env s c h
      rw [hgf] at h2; exact h2
    try rw [hgf]
    cases r1 with
    | error e => exact hw1
    | ok zipFilename =>
      try dsimp only
      cases hel : extractLoop (dest.getD env.cwd) o
          (extractZip (env.parseZip ((fsGet s1.fs zipFilename).getD []))) [] s1 with
      | mk r2 s2 =>
        have hw2 : writesCheckedAux c s2.tr = true := by
          have h3 := wc_extractLoop (dest.getD env.cwd) o c
            (extractZip (env.parseZip ((fsGet s1.fs zipFilename).getD []))) [] s1 hw1
          rw [hel] at h3; exact h3
        try rw [hel]
        cases r2 with
        | error e => exact hw2
        | ok images =>
          simpa [stRemove, wca_append_remove] using hw2

theorem wc_joinImages (env : Env) (images : List String) (force : Bool)
    (s : St) (c : List String) (h : writesCheckedAux c s.tr = true) :
    writesCheckedAux c (((joinImages env images force s).2).tr) = true := by
  cases images with
  | nil => simpa [joinImages] using h
  | cons first rest =>
    unfold joinImages
    try dsimp only
    cases hcp : checkPath s (splitUnderscoreHead first ++ ".img") force with
    | mk r1 s1 =>
      have hs1 : s1 = stCheck s (splitUnderscoreHead first ++ ".img") force := by
        have h2 := checkPath_snd s (splitUnderscoreHead first ++ ".img") force
        rw [hcp] at h2; exact h2
      subst hs1
      try rw [hcp]
      cases r1 with
      | error e =>
        simpa [stCheck, wca_append_check] using h
      | ok b =>
        try dsimp only
        have hw1 : writesCheckedAux c ((stCheck s (splitUnderscoreHead first ++ ".img") force).tr) = true := by
          simpa [stCheck, wca_append_check] using h
        have hc1 : (addChecks c ((stCheck s (splitUnderscoreHead first ++ ".img") force).tr)).contains
            (splitUnderscoreHead first ++ ".img") = true := by
          dsimp [stCheck]
          rw [addChecks_append_check]
          exact contains_cons_self _ _
        cases hrt : runTool env (dasdcopyJoinCmd b first (splitUnderscoreHead first ++ ".img"))
            (splitUnderscoreHead first ++ ".img")
            (stCheck s (splitUnderscoreHead first ++ ".img") force) with
        | mk r2 s2 =>
          have hw2 : writesCheckedAux c s2.tr = true := by
            have h3 := wc_runTool env (dasdcopyJoinCmd b first (splitUnderscoreHead first ++ ".img"))
              (splitUnderscoreHead first ++ ".img")
              (stCheck s (splitUnderscoreHead first ++ ".img") force) c hw1 hc1
            rw [hrt] at h3; exact h3
          try rw [hrt]
          cases r2 with
          | error e => exact hw2
          | ok u =>
            try dsimp only
            rw [foldl_stRemove_tr, wca_append, hw2, wca_removes]
            rfl

theorem wc_convertImage (env : Env) (compression outputFormat volIn : String)
    (force : Bool) (s : St) (c : List String) (h : writesCheckedAux c s.tr = true) :
    writesCheckedAux c (((convertImage env compression outputFormat volIn force s).2).tr) = true := by
  unfold convertImage
  try dsimp only
  cases hcp : checkPath s (splitextStem volIn ++ "." ++ strToLower outputFormat) force with
  | mk r1 s1 =>
    have hs1 : s1 = stCheck s (splitextStem volIn ++ "." ++ strToLower outputFormat) force := by
      have h2 := checkPath_snd s (splitextStem volIn ++ "." ++ strToLower outputFormat) force
      rw [hcp] at h2; exact h2
    subst hs1
    try rw [hcp]
    cases r1 with
    | error e =>
      simpa [stCheck, wca_append_check] using h
    | ok b =>
      try dsimp only
      have hw1 : writesCheckedAux c ((stCheck s (splitextStem volIn ++ "." ++ strToLower outputFormat) force).tr) = true := by
        simpa [stCheck, wca_append_check] using h
      have hc1 : (addChecks c ((stCheck s (splitextStem volIn ++ "." ++ strToLower outputFormat) force).tr)).contains
          (splitextStem volIn ++ "." ++ strToLower outputFormat) = true := by
        dsimp [stCheck]
        rw [addChecks_append_check]
        exact contains_cons_self _ _
      cases hrt : runTool env
          (dasdcopyConvertCmd b compression outputFormat volIn (splitextStem volIn ++ "." ++ strToLower outputFormat))
          (splitextStem volIn ++ "." ++ strToLower outputFormat)
          (stCheck s (splitextStem volIn ++ "." ++ strToLower outputFormat) force) with
      | mk r2 s2 =>
        have hw2 : writesCheckedAux c s2.tr = true := by
          have h3 := wc_runTool env
            (dasdcopyConvertCmd b compression outputFormat volIn (splitextStem volIn ++ "." ++ strToLower outputFormat))
            (splitextStem volIn ++ "." ++ strToLower outputFormat)
            (stCheck s (splitextStem volIn ++ "." ++ strToLower outputFormat) force) c hw1 hc1
          rw [hrt] at h3; exact h3
        try rw [hrt]
        cases r2 with
        | error e => exact hw2
        | ok u =>
          simpa [stRemove, wca_append_remove] using hw2

theorem wc_convertTape (env : Env) (iso : Iso) (dist tape compression : String)
    (dest : Option String) (o : Bool) (s : St) (c : List String)
    (h : writesCheckedAux c s.tr = true)
    (hc : c.contains ((dest.getD env.cwd) ++ "/" ++ tape ++ ".het") = true) :
    writesCheckedAux c (((convertTape env iso dist tape compression dest o s).2).tr) = true := by
  unfold convertTape
  try dsimp only
  cases hgf : getFileFromIso iso dist (tape ++ ".IPL") dest o env s with
  | mk r1 s1 =>
    have hw1 : writesCheckedAux c s1.tr = true := by
      have h2 := wc_getFileFromIso iso dist (tape ++ ".IPL") dest o env s c h
      rw [hgf] at h2; exact h2
    try rw [hgf]
    cases r1 with
    | error e => exact hw1
    | ok tapeIn =>
      try dsimp only
      have hc1 : (addChecks c s1.tr).contains ((dest.getD env.cwd) ++ "/" ++ tape ++ ".het") = true :=
        contains_addChecks s1.tr c _ hc
      cases hrt : runTool env
          (hetupdCmd compression tapeIn ((dest.getD env.cwd) ++ "/" ++ tape ++ ".het"))
          ((dest.getD env.cwd) ++ "/" ++ tape ++ ".het") s1 with
      | mk r2 s2 =>
        have hw2 : writesCheckedAux c s2.tr = true := by
          have h3 := wc_runTool env
            (hetupdCmd compression tapeIn ((dest.getD env.cwd) ++ "/" ++ tape ++ ".het"))
            ((dest.getD env.cwd) ++ "/" ++ tape ++ ".het") s1 c hw1 hc1
          rw [hrt] at h3; exact h3
        try rw [hrt]
        cases r2 with
        | error e => exact hw2
        | ok u =>
          simpa [stRemove, wca_append_remove] using hw2

theorem wc_convertVolumeStep (env : Env) (iso : Iso)
    (dist vol compression outputFormat : String) (destination : Option String)
    (force : Bool) (s : St) (c : List String) (h : writesCheckedAux c s.tr = true) :
    writesCheckedAux c
      (((convertVolumeStep env iso dist vol compression outputFormat destination force s).2).tr)
      = true := by
  unfold convertVolumeStep
  try dsimp only
  cases hev : extractVolume env iso dist vol destination force s with
  | mk r1 s1 =>
    have hw1 : writesCheckedAux c s1.tr = true := by
      have h2 := wc_extractVolume env iso dist vol destination force s c h
      rw [hev] at h2; exact h2
    try rw [hev]
    cases r1 with
    | error e => exact hw1
    | ok images =>
      try dsimp only
      cases images with
      | nil => exact hw1
      | cons first rest =>
        try dsimp only
        cases hj : (if rest.isEmpty then (Except.ok first, s1)
            else joinImages env (first :: rest) force s1) with
        | mk r2 s2 =>
          have hw2 : writesCheckedAux c s2.tr = true := by
            by_cases hr : rest.isEmpty
            · rw [if_pos hr] at hj
              cases hj; exact hw1
            · rw [if_neg hr] at hj
              have h3 := wc_joinImages env (first :: rest) force s1 c hw1
              rw [hj] at h3; exact h3
          try rw [hj]
          cases r2 with
          | error e => exact hw2
          | ok volIn =>
            try dsimp only
            exact wc_convertImage env compression outputFormat volIn force s2 c hw2

theorem getFileFromIso_ok {iso : Iso} {dist fn : String} {dest : Option String}
    {o : Bool} {env : Env} {s : St} {r : String} {s1 : St}
    (h : getFileFromIso iso dist fn dest o env s = (Except.ok r, s1)) :
    r = (dest.getD env.cwd) ++ "/" ++ fn ∧ fsExists s1.fs r = true ∧
      ∃ content, fsGet s1.fs r = some content ∧
        (fsGet iso ("/" ++ dist ++ "/" ++ fn) = some content ∨
         fsGet iso ("/" ++ dist ++ "/" ++ fn ++ ";1") = some content) := by
  unfold getFileFromIso at h
  try dsimp only at h
  cases hcp : checkPath s ((dest.getD env.cwd) ++ "/" ++ fn) o with
  | mk r1 s1' =>
    rw [hcp] at h
    cases r1 with
    | error e => simp at h
    | ok b =>
      try dsimp only at h
      cases hl1 : fsGet iso ("/" ++ dist ++ "/" ++ fn) with
      | some content =>
        rw [hl1] at h
        try dsimp only at h
        simp only [Prod.mk.injEq, Except.ok.injEq] at h
        obtain ⟨hr, hs⟩ := h
        subst hr; subst hs
        refine ⟨rfl, fsExists_fsWrite_self _ _ _, content, fsGet_fsWrite_self _ _ _, Or.inl rfl⟩
      | none =>
        rw [hl1] at h
        try dsimp only at h
        cases hl2 : fsGet iso ("/" ++ dist ++ "/" ++ fn ++ ";1") with
        | some content =>
          rw [hl2] at h
          try dsimp only at h
          simp only [Prod.mk.injEq, Except.ok.injEq] at h
          obtain ⟨hr, hs⟩ := h
          subst hr; subst hs
          refine ⟨rfl, fsExists_fsWrite_self _ _ _, content, fsGet_fsWrite_self _ _ _, Or.inr rfl⟩
        | none =>
          rw [hl2] at h
          simp at h

theorem getFileFromIso_found_true {iso : Iso} {dist fn : String} {content : Bytes}
    (dest : Option String) (env : Env) (s : St)
    (hz : fsGet iso ("/" ++ dist ++ "/" ++ fn) = some content) :
    getFileFromIso iso dist fn dest true env s =
      (Except.ok ((dest.getD env.cwd) ++ "/" ++ fn),
       stWrite
         (if fsExists s.fs ((dest.getD env.cwd) ++ "/" ++ fn)
          then stRemove (stCheck s ((dest.getD env.cwd) ++ "/" ++ fn) true)
            ((dest.getD env.cwd) ++ "/" ++ fn)
          else stCheck s ((dest.getD env.cwd) ++ "/" ++ fn) true)
         ((dest.getD env.cwd) ++ "/" ++ fn) content) := by
  unfold getFileFromIso
  try dsimp only
  rw [checkPath_pass s ((dest.getD env.cwd) ++ "/" ++ fn) true (fun _ => rfl)]
  try dsimp only
  rw [hz]
  by_cases he : fsExists s.fs ((dest.getD env.cwd) ++ "/" ++ fn) = true
  · simp [he]
  · replace he : fsExists s.fs ((dest.getD env.cwd) ++ "/" ++ fn) = false := by simpa using he
    simp [he]

theorem extractLoop_true_fst (destD : String) :
    ∀ (pairs : List (String × Bytes)) (images : List String) (s : St),
      (extractLoop destD true pairs images s).1 =
        Except.ok (images ++ pairs.map (fun pr => destD ++ "/" ++ basename pr.1)) := by
  intro pairs
  induction pairs with
  | nil => intro images s; simp [extractLoop]
  | cons pr rest ih =>
    intro images s
    obtain ⟨fname, content⟩ := pr
    unfold extractLoop
    try dsimp only
    rw [checkPath_pass s (destD ++ "/" ++ basename fname) true (fun _ => rfl)]
    try dsimp only
    rw [ih]
    simp

theorem extractLoop_fs_preserve (destD : String) (o : Bool) :
    ∀ (pairs : List (String × Bytes)) (images : List String) (s : St) (p : String),
      (p ∉ pairs.map (fun pr => destD ++ "/" ++ basename pr.1)) →
      fsGet (((extractLoop destD o pairs images s).2).fs) p = fsGet s.fs p := by
  intro pairs
  induction pairs with
  | nil => intro images s p hp; simp [extractLoop]
  | cons pr rest ih =>
    intro images s p hp
    obtain ⟨fname, content⟩ := pr
    have hne : p ≠ destD ++ "/" ++ basename fname := by
      intro hc; exact hp (by simp [hc])
    have hrest : p ∉ rest.map (fun pr => destD ++ "/" ++ basename pr.1) := by
      intro hc
      exact hp (by simp only [List.map_cons]; exact List.mem_cons_of_mem _ hc)
    unfold extractLoop
    try dsimp only
    cases hcp : checkPath s (destD ++ "/" ++ basename fname) o with
    | mk r1 s1 =>
      have hfs1 : s1.fs = s.fs := by
        have h2 := checkPath_fs s (destD ++ "/" ++ basename fname) o
        rw [hcp] at h2; exact h2
      try rw [hcp]
      cases r1 with
      | error e => rw [hfs1]
      | ok b =>
        try dsimp only
        rw [ih _ _ p hrest]
        show fsGet (fsWrite s1.fs (destD ++ "/" ++ basename fname) content) p = fsGet s.fs p
        rw [fsGet_fsWrite_ne _ _ _ _ hne, hfs1]

theorem extractLoop_sets (destD : String) :
    ∀ (pairs : List (String × Bytes)) (images : List String) (s : St),
      (pairs.map (fun pr => destD ++ "/" ++ basename pr.1)).Nodup →
      ∀ pr ∈ pairs,
        fsGet (((extractLoop destD true pairs images s).2).fs)
          (destD ++ "/" ++ basename pr.1) = some pr.2 := by
  intro pairs
  induction pairs with
  | nil => intro images s hnd pr hpr; cases hpr
  | cons hd rest ih =>
    intro images s hnd pr hpr
    obtain ⟨fname, content⟩ := hd
    have hnd2 : ((destD ++ "/" ++ basename fname) ∉
        rest.map (fun pr => destD ++ "/" ++ basename pr.1)) ∧
        (rest.map (fun pr => destD ++ "/" ++ basename pr.1)).Nodup := by
      simpa using hnd
    unfold extractLoop
    try dsimp only
    rw [checkPath_pass s (destD ++ "/" ++ basename fname) true (fun _ => rfl)]
    try dsimp only
    rcases List.mem_cons.mp hpr with hpr | hpr
    · subst hpr
      rw [extractLoop_fs_preserve destD true rest _ _ _ hnd2.1]
      show fsGet (fsWrite s.fs (destD ++ "/" ++ basename fname) content)
        (destD ++ "/" ++ basename fname) = some content
      exact fsGet_fsWrite_self _ _ _
    · exact ih _ _ hnd2.2 pr hpr

theorem charListLe_total : ∀ as bs : List Char,
    charListLe as bs = true ∨ charListLe bs as = true := by
  intro as
  induction as with
  | nil => intro bs; exact Or.inl rfl
  | cons a as ih =>
    intro bs
    cases bs with
    | nil => exact Or.inr rfl
    | cons b bs2 =>
      by_cases hab : a = b
      · subst hab
        rcases ih bs2 with h | h
        · exact Or.inl (by simp [charListLe, h])
        · exact Or.inr (by simp [charListLe, h])
      · rcases lt_trichotomy a b with hlt | heq | hgt
        · exact Or.inl (by simp [charListLe, hab, hlt])
        · exact absurd heq hab
        · have hba : ¬ (b = a) := fun hc => hab hc.symm
          exact Or.inr (by simp [charListLe, hba, hgt])

theorem charListLe_trans : ∀ as bs cs : List Char,
    charListLe as bs = true → charListLe bs cs = true → charListLe as cs = true := by
  intro as
  induction as with
  | nil => intro bs cs h1 h2; rfl
  | cons a as ih =>
    intro bs cs h1 h2
    cases bs with
    | nil => simp [charListLe] at h1
    | cons b bs2 =>
      cases cs with
      | nil => simp [charListLe] at h2
      | cons c cs2 =>
        by_cases hab : a = b <;> by_cases hbc : b = c
        · subst hab; subst hbc
          simp [charListLe] at h1 h2 ⊢
          exact ih bs2 cs2 h1 h2
        · subst hab
          simp [charListLe, hbc] at h2
          have hac : ¬ (a = c) := hbc
          simp [charListLe, hac, h2]
        · subst hbc
          simp [charListLe, hab] at h1
          simp [charListLe, hab, h1]
        · simp [charListLe, hab] at h1
          simp [charListLe, hbc] at h2
          have hac : a < c := lt_trans h1 h2
          have hne : ¬ (a = c) := ne_of_lt hac
          simp [charListLe, hne, hac]

instance : IsTotal String (fun a b => strLeB a b = true) :=
  ⟨fun a b => charListLe_total a.toList b.toList⟩

instance : IsTrans String (fun a b => strLeB a b = true) :=
  ⟨fun a b c => charListLe_trans a.toList b.toList c.toList⟩

theorem pySorted_sorted (l : List String) :
    List.Sorted (fun a b => strLeB a b = true) (pySorted l) :=
  List.sorted_insertionSort _ l

theorem extractVolume_ok {env : Env} {iso : Iso} {dist vol : String}
    {dest : Option String} {o : Bool} {s : St} {images : List String}
    (h : (extractVolume env iso dist vol dest o s).1 = Except.ok images) :
    List.Sorted (fun a b : String => strLeB a b = true) images ∧
      fsExists (((extractVolume env iso dist vol dest o s).2).fs)
        ((dest.getD env.cwd) ++ "/" ++ (vol ++ ".ZIP")) = false := by
  unfold extractVolume at h ⊢
  try dsimp only at h ⊢
  cases hgf : getFileFromIso iso dist (vol ++ ".ZIP") dest o env s with
  | mk r1 s1 =>
    rw [hgf] at h
    try rw [hgf]
    cases r1 with
    | error e => simp at h
    | ok zipF =>
      have hname : zipF = (dest.getD env.cwd) ++ "/" ++ (vol ++ ".ZIP") :=
        (getFileFromIso_ok hgf).1
      try dsimp only at h ⊢
      cases hel : extractLoop (dest.getD env.cwd) o
          (extractZip (env.parseZip ((fsGet s1.fs zipF).getD []))) [] s1 with
      | mk r2 s2 =>
        rw [hel] at h
        try rw [hel]
        cases r2 with
        | error e => simp at h
        | ok imgs =>
          try dsimp only at h ⊢
          have himg : pySorted imgs = images := by simpa using h
          constructor
          · rw [← himg]
            exact List.sorted_insertionSort _ _
          · show fsExists (fsRemove s2.fs zipF) ((dest.getD env.cwd) ++ "/" ++ (vol ++ ".ZIP")) = false
            rw [← hname]
            exact fsExists_fsRemove_self _ _

theorem extractVolume_subproc {env : Env} {iso : Iso} {dist vol : String}
    {dest : Option String} {s : St} {zbytes : Bytes}
    (hz : fsGet iso ("/" ++ dist ++ "/" ++ (vol ++ ".ZIP")) = some zbytes)
    (har : (env.parseZip zbytes).probeOk = false)
    (hnd : ((env.parseZip zbytes).entries.map
      (fun e => (dest.getD env.cwd) ++ "/" ++ basename e.name)).Nodup)
    (hzp : ((dest.getD env.cwd) ++ "/" ++ (vol ++ ".ZIP")) ∉
      (env.parseZip zbytes).entries.map
        (fun e => (dest.getD env.cwd) ++ "/" ++ basename e.name)) :
    (extractVolume env iso dist vol dest true s).1 =
        Except.ok (pySorted ((env.parseZip zbytes).entries.map
          (fun e => (dest.getD env.cwd) ++ "/" ++ basename e.name))) ∧
      ∀ e ∈ (env.parseZip zbytes).entries,
        fsGet (((extractVolume env iso dist vol dest true s).2).fs)
          ((dest.getD env.cwd) ++ "/" ++ basename e.name) = some e.subproc := by
  unfold extractVolume
  try dsimp only
  rw [getFileFromIso_found_true dest env s hz]
  try dsimp only
  have hget : (fsGet ((stWrite
      (if fsExists s.fs ((dest.getD env.cwd) ++ "/" ++ (vol ++ ".ZIP"))
       then stRemove (stCheck s ((dest.getD env.cwd) ++ "/" ++ (vol ++ ".ZIP")) true)
         ((dest.getD env.cwd) ++ "/" ++ (vol ++ ".ZIP"))
       else stCheck s ((dest.getD env.cwd) ++ "/" ++ (vol ++ ".ZIP")) true)
      ((dest.getD env.cwd) ++ "/" ++ (vol ++ ".ZIP")) zbytes).fs)
      ((dest.getD env.cwd) ++ "/" ++ (vol ++ ".ZIP"))).getD [] = zbytes := by
    show (fsGet (fsWrite _ ((dest.getD env.cwd) ++ "/" ++ (vol ++ ".ZIP")) zbytes)
      ((dest.getD env.cwd) ++ "/" ++ (vol ++ ".ZIP"))).getD [] = zbytes
    rw [fsGet_fsWrite_self]
    rfl
  rw [hget]
  have hzip : extractZip (env.parseZip zbytes) =
      (env.parseZip zbytes).entries.map (fun e => (e.name, e.subproc)) := by
    unfold extractZip
    rw [har]
    simp [subprocEntries]
  rw [hzip]
  have hmapmap : ((env.parseZip zbytes).entries.map (fun e => (e.name, e.subproc))).map
      (fun pr => (dest.getD env.cwd) ++ "/" ++ basename pr.1) =
      (env.parseZip zbytes).entries.map
        (fun e => (dest.getD env.cwd) ++ "/" ++ basename e.name) := by
    rw [List.map_map]; rfl
  cases hel : extractLoop (dest.getD env.cwd) true
      ((env.parseZip zbytes).entries.map (fun e => (e.name, e.subproc))) []
      (stWrite
        (if fsExists s.fs ((dest.getD env.cwd) ++ "/" ++ (vol ++ ".ZIP"))
         then stRemove (stCheck s ((dest.getD env.cwd) ++ "/" ++ (vol ++ ".ZIP")) true)
           ((dest.getD env.cwd) ++ "/" ++ (vol ++ ".ZIP"))
         else stCheck s ((dest.getD env.cwd) ++ "/" ++ (vol ++ ".ZIP")) true)
        ((dest.getD env.cwd) ++ "/" ++ (vol ++ ".ZIP")) zbytes) with
  | mk r2 s2 =>
    have hfst := extractLoop_true_fst (dest.getD env.cwd)
      ((env.parseZip zbytes).entries.map (fun e => (e.name, e.subproc))) []
      (stWrite
        (if fsExists s.fs ((dest.getD env.cwd) ++ "/" ++ (vol ++ ".ZIP"))
         then stRemove (stCheck s ((dest.getD env.cwd) ++ "/" ++ (vol ++ ".ZIP")) true)
           ((dest.getD env.cwd) ++ "/" ++ (vol ++ ".ZIP"))
         else stCheck s ((dest.getD env.cwd) ++ "/" ++ (vol ++ ".ZIP")) true)
        ((dest.getD env.cwd) ++ "/" ++ (vol ++ ".ZIP")) zbytes)
    rw [hel] at hfst
    cases r2 with
    | error e => simp at hfst
    | ok imgs =>
      have himgs : imgs = (env.parseZip zbytes).entries.map
          (fun e => (dest.getD env.cwd) ++ "/" ++ basename e.name) := by
        have h2 : Except.ok (ε := Err) imgs =
            Except.ok ([] ++ ((env.parseZip zbytes).entries.map
              (fun e => (e.name, e.subproc))).map
              (fun pr => (dest.getD env.cwd) ++ "/" ++ basename pr.1)) := hfst
        simp only [List.nil_append, hmapmap, Except.ok.injEq] at h2
        exact h2
      try dsimp only
      constructor
      · rw [himgs]
      · intro e he
        have hne : ((dest.getD env.cwd) ++ "/" ++ basename e.name) ≠
            ((dest.getD env.cwd) ++ "/" ++ (vol ++ ".ZIP")) := by
          intro hc
          refine hzp ?_
          rw [← hc]
          exact List.mem_map_of_mem _ he
        show fsGet (fsRemove s2.fs ((dest.getD env.cwd) ++ "/" ++ (vol ++ ".ZIP")))
          ((dest.getD env.cwd) ++ "/" ++ basename e.name) = some e.subproc
        rw [fsGet_fsRemove_ne _ _ _ hne]
        have hmem : ((e.name, e.subproc) : String × Bytes) ∈
            (env.parseZip zbytes).entries.map (fun e => (e.name, e.subproc)) :=
          List.mem_map_of_mem _ he
        have hnd2 : (((env.parseZip zbytes).entries.map
            (fun e => (e.name, e.subproc))).map
            (fun pr => (dest.getD env.cwd) ++ "/" ++ basename pr.1)).Nodup := by
          rw [hmapmap]; exact hnd
        have h3 := extractLoop_sets (dest.getD env.cwd)
          ((env.parseZip zbytes).entries.map (fun e => (e.name, e.subproc))) []
          (stWrite
            (if fsExists s.fs ((dest.getD env.cwd) ++ "/" ++ (vol ++ ".ZIP"))
             then stRemove (stCheck s ((dest.getD env.cwd) ++ "/" ++ (vol ++ ".ZIP")) true)
               ((dest.getD env.cwd) ++ "/" ++ (vol ++ ".ZIP"))
             else stCheck s ((dest.getD env.cwd) ++ "/" ++ (vol ++ ".ZIP")) true)
            ((dest.getD env.cwd) ++ "/" ++ (vol ++ ".ZIP")) zbytes)
          hnd2 (e.name, e.subproc) hmem
        rw [hel] at h3
        exact h3

theorem dictGetD_dictAppend :
    ∀ (found : List (String × List String)) (k v q : String),
      dictGetD (dictAppend found k v) q =
        dictGetD found q ++ (if q = k then [v] else []) := by
  intro found
  induction found with
  | nil =>
    intro k v q
    by_cases h : q = k
    · subst h; simp [dictGetD, dictAppend]
    · have hk : ¬ (k = q) := fun hc => h hc.symm
      simp [dictGetD, dictAppend, h, hk]
  | cons e rest ih =>
    intro k v q
    by_cases hek : e.1 = k
    · by_cases hq : q = k
      · have heq : e.1 = q := by rw [hek, hq]
        simp [dictAppend, dictGetD, hek, hq, heq]
      · have heq : ¬ (e.1 = q) := by
          rw [hek]; exact fun hc => hq hc.symm
        have hkq : ¬ (k = q) := fun hc => hq hc.symm
        simp [dictAppend, dictGetD, hek, hq, heq, hkq]
    · by_cases heq : e.1 = q
      · have hq : ¬ (q = k) := fun hc => hek (heq ▸ hc ▸ rfl)
        simp [dictAppend, dictGetD, hek, heq, hq]
      · simp [dictAppend, dictGetD, hek, heq, ih]

theorem dictGetD_walkFiles :
    ∀ (files : List String) (extension parent : String)
      (found : List (String × List String)) (q : String),
      dictGetD (walkFiles extension parent found files) q =
        dictGetD found q ++
          (if q = parent
           then (files.filter (fun f => matchExt extension f)).map splitextStem
           else []) := by
  intro files
  induction files with
  | nil =>
    intro ext parent found q
    by_cases h : q = parent <;> simp [walkFiles, h]
  | cons f fs ih =>
    intro ext parent found q
    by_cases hm : matchExt ext f = true
    · show dictGetD (walkFiles ext parent found (f :: fs)) q = _
      rw [walkFiles, if_pos hm, ih, dictGetD_dictAppend]
      by_cases hq : q = parent
      · simp [hq, List.filter_cons, hm]
      · simp [hq]
    · replace hm : matchExt ext f = false := by simpa using hm
      show dictGetD (walkFiles ext parent found (f :: fs)) q = _
      rw [walkFiles, if_neg (by simp [hm]), ih]
      by_cases hq : q = parent
      · simp [hq, List.filter_cons, hm]
      · simp [hq]

theorem pair_filter_map (k : String) :
    ∀ (l : List String) (q : String),
      ((l.map (fun v => (k, v))).filter (fun pr => pr.1 == q)).map (fun pr => pr.2) =
        if q = k then l else [] := by
  intro l
  induction l with
  | nil => intro q; by_cases h : q = k <;> simp [h]
  | cons v vs ih =>
    intro q
    by_cases h : q = k
    · subst h; simp [List.filter_cons, ih]
    · have hk : ¬ (k = q) := fun hc => h hc.symm
      simp [List.filter_cons, ih, h, hk]

theorem dictGetD_walkRoots :
    ∀ (entries : List (String × List String)) (extension : String)
      (found : List (String × List String)) (q : String),
      dictGetD (walkRoots extension found entries) q =
        dictGetD found q ++
          ((flatMatches entries extension).filter (fun pr => pr.1 == q)).map
            (fun pr => pr.2) := by
  intro entries
  induction entries with
  | nil => intro ext found q; simp [walkRoots, flatMatches]
  | cons rf rest ih =>
    intro ext found q
    show dictGetD (walkRoots ext (walkFiles ext (basename rf.1) found rf.2) rest) q = _
    rw [ih, dictGetD_walkFiles]
    have hsplit : (rf.2.filter (fun f => matchExt ext f)).map
        (fun f => (basename rf.1, splitextStem f)) =
        ((rf.2.filter (fun f => matchExt ext f)).map splitextStem).map
          (fun v => (basename rf.1, v)) := by
      rw [List.map_map]; rfl
    show _ = dictGetD found q ++
      ((flatMatches (rf :: rest) ext).filter (fun pr => pr.1 == q)).map (fun pr => pr.2)
    rw [flatMatches, hsplit, List.filter_append, List.map_append, pair_filter_map,
      List.append_assoc]

end Lemmas

/-! Concrete runs used by witnesses and counterexamples. -/

/-- A world where every external tool succeeds and writes byte 7. -/
def envTape : Env := ⟨"/w", fun _ => true, fun _ => [7], fun _ => ⟨true, []⟩⟩

/-- A world where every external tool exits nonzero. -/
def envTapeFail : Env := ⟨"/w", fun _ => false, fun _ => [7], fun _ => ⟨true, []⟩⟩

/-- An ISO carrying one tape unit T in distribution Z. -/
def isoTape : Iso := [("/Z/T.IPL", [1])]

/-- An ISO carrying one volume unit V in distribution D. -/
def isoVol : Iso := [("/D/V.ZIP", [9])]

/-- A world whose archive fails the integrity probe and whose single entry
can be read by neither strategy: `unzip -p` emits nothing. -/
def envVolEmpty : Env := ⟨"/w", fun _ => true, fun _ => [7], fun _ => ⟨false, [⟨"V001_1", none, []⟩]⟩⟩

/-- A world whose archive holds two readable fragments of a multi-part
image. -/
def envVol2 : Env :=
  ⟨"/w", fun _ => true, fun _ => [7],
   fun _ => ⟨true, [⟨"V001_1", some [1], []⟩, ⟨"V001_2", some [2], []⟩]⟩⟩

/-! Claims. -/

/-- C3: checkPath fails fatally (and the filesystem is untouched) when the
path exists and overwrite is off; returns true when the path exists and
overwrite is on, and a subsequent write replaces the prior content; returns
false when the path does not exist. -/
theorem checkPath_contract :
    ∀ (s : St) (path : String) (ow : Bool),
      (fsExists s.fs path = true → ow = false →
        (checkPath s path ow).1 = Except.error (Err.pathExists path) ∧
          ((checkPath s path ow).2).fs = s.fs) ∧
      (fsExists s.fs path = true → ow = true → (checkPath s path ow).1 = Except.ok true) ∧
      (fsExists s.fs path = false → (checkPath s path ow).1 = Except.ok false) ∧
      (∀ b : Bytes, fsGet (fsWrite s.fs path b) path = some b) := by
  intro s path ow
  refine ⟨?_, ?_, ?_, ?_⟩
  · intro h1 h2
    subst h2
    constructor
    · rw [checkPath_fail s path h1]
    · exact checkPath_fs s path false
  · intro h1 h2
    subst h2
    simp [checkPath, h1]
  · intro h1
    simp [checkPath, h1]
  · intro b
    exact fsGet_fsWrite_self s.fs path b

theorem checkPath_contract_witness :
    (checkPath ⟨[("/x", [0])], []⟩ "/x" false).1 = Except.error (Err.pathExists "/x") ∧
    (checkPath ⟨[("/x", [0])], []⟩ "/x" true).1 = Except.ok true ∧
    (checkPath ⟨[], []⟩ "/x" false).1 = Except.ok false ∧
    fsGet (fsWrite [("/x", [0])] "/x" [5]) "/x" = some [5] :=
  ⟨((checkPath_contract ⟨[("/x", [0])], []⟩ "/x" false).1 (by decide) rfl).1,
   (checkPath_contract ⟨[("/x", [0])], []⟩ "/x" true).2.1 (by decide) rfl,
   (checkPath_contract ⟨[], []⟩ "/x" false).2.2.1 (by decide),
   (checkPath_contract ⟨[("/x", [0])], []⟩ "/x" false).2.2.2 [5]⟩

/-- C5 counterexample: when the walk hands the same matching entry twice,
the catalog keeps the unit id twice — the unit lists are not duplicate
free, contradicting the claim. -/
theorem walkISO_duplicate_counterexample :
    dictGetD (walkISO [("/X", ["A.IPL", "A.IPL"])] "ipl") "X" = ["A", "A"] ∧
      ¬ (dictGetD (walkISO [("/X", ["A.IPL", "A.IPL"])] "ipl") "X").Nodup := by
  decide

/-- C5 amended: for every disc walk and extension suffix, the catalog maps
each immediate parent directory name to the list of unit ids (file stems)
of matching files in encounter order; an entry encountered multiple times
contributes its unit id multiple times (no deduplication). -/
theorem walkISO_catalog_amended :
    ∀ (walkEntries : List (String × List String)) (extension q : String),
      dictGetD (walkISO walkEntries extension) q =
        ((flatMatches walkEntries extension).filter (fun pr => pr.1 == q)).map
          (fun pr => pr.2) := by
  intro w ext q
  have h := dictGetD_walkRoots w ext [] q
  simpa [walkISO, dictGetD] using h

/-- C6: a successful extractVolume returns the fragment paths sorted
lexicographically, and the intermediate archive copy no longer exists on
disk in the state it returns. -/
theorem extractVolume_sorted_and_archive_removed :
    ∀ (env : Env) (iso : Iso) (dist vol : String) (dest : Option String)
      (ow : Bool) (s : St) (images : List String),
      (extractVolume env iso dist vol dest ow s).1 = Except.ok images →
      List.Sorted (fun a b : String => strLeB a b = true) images ∧
        fsExists (((extractVolume env iso dist vol dest ow s).2).fs)
          ((dest.getD env.cwd) ++ "/" ++ (vol ++ ".ZIP")) = false := by
  intro env iso dist vol dest ow s images h
  exact extractVolume_ok h

theorem extractVolume_sorted_and_archive_removed_witness :
    List.Sorted (fun a b : String => strLeB a b = true) ["/w/V001_1", "/w/V001_2"] ∧
      fsExists (((extractVolume envVol2 isoVol "D" "V" none false ⟨[], []⟩).2).fs)
        (((none : Option String).getD envVol2.cwd) ++ "/" ++ ("V" ++ ".ZIP")) = false :=
  extractVolume_sorted_and_archive_removed envVol2 isoVol "D" "V" none false ⟨[], []⟩
    ["/w/V001_1", "/w/V001_2"] (by decide)

/-- C2 counterexample: a successful tape conversion writes the converted
tape image without checkPath ever being invoked on its path — the run's
trace violates the checked-before-write discipline. -/
theorem convertTape_unchecked_het_write :
    (convertTape envTape isoTape "Z" "T" "zlib" none false ⟨[], []⟩).1 = Except.ok "/w/T.het" ∧
      writesChecked (((convertTape envTape isoTape "Z" "T" "zlib" none false ⟨[], []⟩).2).tr)
        = false := by
  decide

/-- C2 amended: in the volume pipeline every destination write (archive
copy, fragments, join target, converted volume image) is preceded by a
checkPath on that path; in the tape pipeline the same holds for every
write except the converted tape image, which the external converter writes
without any collision check. -/
theorem checkPath_guards_all_but_tape_output :
    (∀ (env : Env) (iso : Iso) (dist vol compression outputFormat : String)
        (dest : Option String) (force : Bool) (fs : FS),
        writesChecked
          (((convertVolumeStep env iso dist vol compression outputFormat dest force
            ⟨fs, []⟩).2).tr) = true) ∧
    (∀ (env : Env) (iso : Iso) (dist tape compression : String)
        (dest : Option String) (ow : Bool) (fs : FS),
        writesCheckedAux [(dest.getD env.cwd) ++ "/" ++ tape ++ ".het"]
          (((convertTape env iso dist tape compression dest ow ⟨fs, []⟩).2).tr) = true) := by
  constructor
  · intro env iso dist vol compression outputFormat dest force fs
    exact wc_convertVolumeStep env iso dist vol compression outputFormat dest force
      ⟨fs, []⟩ [] rfl
  · intro env iso dist tape compression dest ow fs
    refine wc_convertTape env iso dist tape compression dest ow ⟨fs, []⟩
      [(dest.getD env.cwd) ++ "/" ++ tape ++ ".het"] rfl ?_
    exact contains_cons_self [] _

/-- C1 counterexample: when the external tape converter exits nonzero, the
copied .IPL tape file survives on disk: CalledProcessError propagates
before os.remove runs, so the failure path performs no cleanup. -/
theorem convertTape_cleanup_counterexample :
    ((convertTape envTapeFail isoTape "Z" "T" "zlib" none false ⟨[], []⟩).1).isOk = false ∧
      fsExists (((convertTape envTapeFail isoTape "Z" "T" "zlib" none false ⟨[], []⟩).2).fs)
        "/w/T.IPL" = true := by
  decide

/-- C1 amended: temporary artifacts are removed on the successful path of
each unit's job (the copied .IPL after a successful tape conversion, the
archive copy when extraction returns, the fragments after a successful
join, the pre-conversion image after a successful format conversion), but
on early-exit failure paths such as a nonzero exit of the external
converter the artifacts created so far are left on disk. -/
theorem cleanup_on_success_not_on_failure :
    (∀ (env : Env) (iso : Iso) (dist tape compression : String) (dest : Option String)
        (ow : Bool) (s : St) (tapeIn out : String),
        (getFileFromIso iso dist (tape ++ ".IPL") dest ow env s).1 = Except.ok tapeIn →
        (convertTape env iso dist tape compression dest ow s).1 = Except.ok out →
        fsExists (((convertTape env iso dist tape compression dest ow s).2).fs) tapeIn
          = false) ∧
    (∀ (env : Env) (iso : Iso) (dist tape compression : String) (dest : Option String)
        (ow : Bool) (s : St) (tapeIn : String),
        (getFileFromIso iso dist (tape ++ ".IPL") dest ow env s).1 = Except.ok tapeIn →
        env.runOk (hetupdCmd compression tapeIn
          ((dest.getD env.cwd) ++ "/" ++ tape ++ ".het")) = false →
        ((convertTape env iso dist tape compression dest ow s).1).isOk = false ∧
          fsExists (((convertTape env iso dist tape compression dest ow s).2).fs) tapeIn
            = true) ∧
    (∀ (env : Env) (iso : Iso) (dist vol : String) (dest : Option String)
        (ow : Bool) (s : St) (images : List String),
        (extractVolume env iso dist vol dest ow s).1 = Except.ok images →
        fsExists (((extractVolume env iso dist vol dest ow s).2).fs)
          ((dest.getD env.cwd) ++ "/" ++ (vol ++ ".ZIP")) = false) ∧
    (∀ (env : Env) (images : List String) (force : Bool) (s : St) (volIn : String),
        (joinImages env images force s).1 = Except.ok volIn →
        ∀ p ∈ images, fsExists (((joinImages env images force s).2).fs) p = false) ∧
    (∀ (env : Env) (compression fmt volIn : String) (force : Bool) (s : St) (out : String),
        (convertImage env compression fmt volIn force s).1 = Except.ok out →
        fsExists (((convertImage env compression fmt volIn force s).2).fs) volIn = false) ∧
    (∀ (env : Env) (compression fmt volIn : String) (force : Bool) (s : St),
        (fsExists s.fs (splitextStem volIn ++ "." ++ strToLower fmt) = true → force = true) →
        env.runOk (dasdcopyConvertCmd
          (fsExists s.fs (splitextStem volIn ++ "." ++ strToLower fmt) && force)
          compression fmt volIn (splitextStem volIn ++ "." ++ strToLower fmt)) = false →
        ((convertImage env compression fmt volIn force s).1).isOk = false ∧
          ((convertImage env compression fmt volIn force s).2).fs = s.fs) := by
  refine ⟨?_, ?_, ?_, ?_, ?_, ?_⟩
  · intro env iso dist tape compression dest ow s tapeIn out h1 h2
    unfold convertTape at h2 ⊢
    try dsimp only at h2 ⊢
    cases hgf : getFileFromIso iso dist (tape ++ ".IPL") dest ow env s with
    | mk r1 s1 =>
      rw [hgf] at h1 h2
      try rw [hgf]
      cases r1 with
      | error e => simp at h1
      | ok v =>
        replace h1 : v = tapeIn := by simpa using h1
        subst h1
        try dsimp only at h2 ⊢
        cases hrt : runTool env
            (hetupdCmd compression v ((dest.getD env.cwd) ++ "/" ++ tape ++ ".het"))
            ((dest.getD env.cwd) ++ "/" ++ tape ++ ".het") s1 with
        | mk r2 s2 =>
          rw [hrt] at h2
          try rw [hrt]
          cases r2 with
          | error e => simp at h2
          | ok u =>
            try dsimp only
            exact fsExists_fsRemove_self _ _
  · intro env iso dist tape compression dest ow s tapeIn h1 hrun
    unfold convertTape
    try dsimp only
    cases hgf : getFileFromIso iso dist (tape ++ ".IPL") dest ow env s with
    | mk r1 s1 =>
      rw [hgf] at h1
      try rw [hgf]
      cases r1 with
      | error e => simp at h1
      | ok v =>
        replace h1 : v = tapeIn := by simpa using h1
        subst h1
        try dsimp only
        rw [runTool_fail env _ _ s1 hrun]
        refine ⟨rfl, ?_⟩
        have hfull : getFileFromIso iso dist (tape ++ ".IPL") dest ow env s =
            (Except.ok v, s1) := hgf
        exact (getFileFromIso_ok hfull).2.1
  · intro env iso dist vol dest ow s images h
    exact (extractVolume_ok h).2
  · intro env images force s volIn h p hp
    cases images with
    | nil => simp [joinImages] at h
    | cons first rest =>
      unfold joinImages at h ⊢
      try dsimp only at h ⊢
      cases hcp : checkPath s (splitUnderscoreHead first ++ ".img") force with
      | mk r1 s1 =>
        rw [hcp] at h
        try rw [hcp]
        cases r1 with
        | error e => simp at h
        | ok b =>
          try dsimp only at h ⊢
          cases hrt : runTool env
              (dasdcopyJoinCmd b first (splitUnderscoreHead first ++ ".img"))
              (splitUnderscoreHead first ++ ".img") s1 with
          | mk r2 s2 =>
            rw [hrt] at h
            try rw [hrt]
            cases r2 with
            | error e => simp at h
            | ok u =>
              try dsimp only
              exact foldl_stRemove_mem (first :: rest) s2 p hp
  · intro env compression fmt volIn force s out h
    unfold convertImage at h ⊢
    try dsimp only at h ⊢
    cases hcp : checkPath s (splitextStem volIn ++ "." ++ strToLower fmt) force with
    | mk r1 s1 =>
      rw [hcp] at h
      try rw [hcp]
      cases r1 with
      | error e => simp at h
      | ok b =>
        try dsimp only at h ⊢
        cases hrt : runTool env
            (dasdcopyConvertCmd b compression fmt volIn
              (splitextStem volIn ++ "." ++ strToLower fmt))
            (splitextStem volIn ++ "." ++ strToLower fmt) s1 with
        | mk r2 s2 =>
          rw [hrt] at h
          try rw [hrt]
          cases r2 with
          | error e => simp at h
          | ok u =>
            try dsimp only
            exact fsExists_fsRemove_self _ _
  · intro env compression fmt volIn force s hpass hrun
    unfold convertImage
    try dsimp only
    rw [checkPath_pass s (splitextStem volIn ++ "." ++ strToLower fmt) force hpass]
    try dsimp only
    rw [runTool_fail env
      (dasdcopyConvertCmd
        (fsExists s.fs (splitextStem volIn ++ "." ++ strToLower fmt) && force)
        compression fmt volIn (splitextStem volIn ++ "." ++ strToLower fmt))
      (splitextStem volIn ++ "." ++ strToLower fmt)
      (stCheck s (splitextStem volIn ++ "." ++ strToLower fmt) force) hrun]
    exact ⟨rfl, rfl⟩

theorem cleanup_on_success_not_on_failure_witness :
    fsExists (((convertTape envTape isoTape "Z" "T" "zlib" none false ⟨[], []⟩).2).fs)
        "/w/T.IPL" = false ∧
      (((convertTape envTapeFail isoTape "Z" "T" "zlib" none false ⟨[], []⟩).1).isOk = false ∧
        fsExists (((convertTape envTapeFail isoTape "Z" "T" "zlib" none false ⟨[], []⟩).2).fs)
          "/w/T.IPL" = true) ∧
      fsExists (((extractVolume envVol2 isoVol "D" "V" none false ⟨[], []⟩).2).fs)
        (((none : Option String).getD envVol2.cwd) ++ "/" ++ ("V" ++ ".ZIP")) = false ∧
      fsExists (((joinImages envVol2 ["/w/V001_1", "/w/V001_2"] false
        ⟨[("/w/V001_1", [1]), ("/w/V001_2", [2])], []⟩).2).fs) "/w/V001_1" = false ∧
      fsExists (((convertImage envVol2 "zlib" "CCKD" "/w/V001.img" false
        ⟨[("/w/V001.img", [7])], []⟩).2).fs) "/w/V001.img" = false ∧
      (((convertImage envTapeFail "zlib" "CCKD" "X.img" false ⟨[], []⟩).1).isOk = false ∧
        ((convertImage envTapeFail "zlib" "CCKD" "X.img" false ⟨[], []⟩).2).fs = []) :=
  ⟨cleanup_on_success_not_on_failure.1 envTape isoTape "Z" "T" "zlib" none false ⟨[], []⟩
      "/w/T.IPL" "/w/T.het" (by decide) (by decide),
   cleanup_on_success_not_on_failure.2.1 envTapeFail isoTape "Z" "T" "zlib" none false
      ⟨[], []⟩ "/w/T.IPL" (by decide) (by decide),
   cleanup_on_success_not_on_failure.2.2.1 envVol2 isoVol "D" "V" none false ⟨[], []⟩
      ["/w/V001_1", "/w/V001_2"] (by decide),
   cleanup_on_success_not_on_failure.2.2.2.1 envVol2 ["/w/V001_1", "/w/V001_2"] false
      ⟨[("/w/V001_1", [1]), ("/w/V001_2", [2])], []⟩ "/w/V001.img" (by decide)
      "/w/V001_1" (by decide),
   cleanup_on_success_not_on_failure.2.2.2.2.1 envVol2 "zlib" "CCKD" "/w/V001.img" false
      ⟨[("/w/V001.img", [7])], []⟩ "/w/V001.cckd" (by decide),
   cleanup_on_success_not_on_failure.2.2.2.2.2 envTapeFail "zlib" "CCKD" "X.img" false
      ⟨[], []⟩ (by decide) (by decide)⟩

/-- C4 counterexample: an entry whose compression the in-process reader
does not support and which the `unzip -p` fallback also cannot read (its
stdout is empty because its exit status is never checked) yields a
successful extraction that silently writes an empty fragment — no
entry-naming archive error aborts the operation. -/
theorem extractZip_fallback_silent_empty_fragment :
    (extractVolume envVolEmpty isoVol "D" "V" none false ⟨[], []⟩).1 =
        Except.ok ["/w/V001_1"] ∧
      fsGet (((extractVolume envVolEmpty isoVol "D" "V" none false ⟨[], []⟩).2).fs)
        "/w/V001_1" = some [] := by
  decide

/-- C4 amended: when the in-process reader reports unsupported compression
at the integrity probe, every entry is read through the subprocess
fallback and whatever bytes it emits — possibly empty when it too cannot
read the entry — are written as that entry's fragment; extraction returns
one fragment per entry and never aborts with an entry-naming archive
error. -/
theorem extractVolume_fallback_amended :
    ∀ (env : Env) (iso : Iso) (dist vol : String) (dest : Option String)
      (s : St) (zbytes : Bytes),
      fsGet iso ("/" ++ dist ++ "/" ++ (vol ++ ".ZIP")) = some zbytes →
      (env.parseZip zbytes).probeOk = false →
      ((env.parseZip zbytes).entries.map
        (fun e => (dest.getD env.cwd) ++ "/" ++ basename e.name)).Nodup →
      ((dest.getD env.cwd) ++ "/" ++ (vol ++ ".ZIP")) ∉
        (env.parseZip zbytes).entries.map
          (fun e => (dest.getD env.cwd) ++ "/" ++ basename e.name) →
      (extractVolume env iso dist vol dest true s).1 =
          Except.ok (pySorted ((env.parseZip zbytes).entries.map
            (fun e => (dest.getD env.cwd) ++ "/" ++ basename e.name))) ∧
        ∀ e ∈ (env.parseZip zbytes).entries,
          fsGet (((extractVolume env iso dist vol dest true s).2).fs)
            ((dest.getD env.cwd) ++ "/" ++ basename e.name) = some e.subproc := by
  intro env iso dist vol dest s zbytes hz har hnd hzp
  exact extractVolume_subproc hz har hnd hzp

theorem extractVolume_fallback_amended_witness :
    (extractVolume envVolEmpty isoVol "D" "V" none true ⟨[], []⟩).1 =
        Except.ok (pySorted ((envVolEmpty.parseZip [9]).entries.map
          (fun e => ((none : Option String).getD envVolEmpty.cwd) ++ "/" ++ basename e.name))) ∧
      fsGet (((extractVolume envVolEmpty isoVol "D" "V" none true ⟨[], []⟩).2).fs)
        (((none : Option String).getD envVolEmpty.cwd) ++ "/" ++
          basename (ZEntry.mk "V001_1" none []).name) = some [] :=
  have h := extractVolume_fallback_amended envVolEmpty isoVol "D" "V" none ⟨[], []⟩ [9]
    (by decide) (by decide) (by decide) (by decide)
  ⟨h.1, h.2 ⟨"V001_1", none, []⟩ (by decide)⟩

/-- C7: with two or more fragments, the assembly join target returned (and
passed as the join command's output) is the first (lexicographically
lowest) fragment path cut at its first underscore, with ".img" appended. -/
theorem join_target_derivation :
    ∀ (env : Env) (first : String) (rest : List String) (force : Bool)
      (s : St) (target : String),
      rest ≠ [] →
      (joinImages env (first :: rest) force s).1 = Except.ok target →
      target = String.mk (first.toList.takeWhile (fun c => ¬ (c = '_'))) ++ ".img" ∧
        Ev.run (dasdcopyJoinCmd (fsExists s.fs target && force) first target) ∈
          (((joinImages env (first :: rest) force s).2).tr) := by
  intro env first rest force s target hne h
  unfold joinImages at h ⊢
  try dsimp only at h ⊢
  by_cases hpass : fsExists s.fs (splitUnderscoreHead first ++ ".img") = true → force = true
  · rw [checkPath_pass s (splitUnderscoreHead first ++ ".img") force hpass] at h ⊢
    try dsimp only at h ⊢
    by_cases hro : env.runOk (dasdcopyJoinCmd
        (fsExists s.fs (splitUnderscoreHead first ++ ".img") && force)
        first (splitUnderscoreHead first ++ ".img")) = true
    · rw [runTool_ok _ _ _ _ hro] at h ⊢
      try dsimp only at h ⊢
      replace h : splitUnderscoreHead first ++ ".img" = target := by simpa using h
      subst h
      refine ⟨rfl, ?_⟩
      rw [foldl_stRemove_tr]
      simp [stWrite, stRun, stCheck, List.mem_append]
    · replace hro : env.runOk (dasdcopyJoinCmd
          (fsExists s.fs (splitUnderscoreHead first ++ ".img") && force)
          first (splitUnderscoreHead first ++ ".img")) = false := by simpa using hro
      rw [runTool_fail _ _ _ _ hro] at h
      simp at h
  · rw [Classical.not_imp] at hpass
    obtain ⟨hex, hf⟩ := hpass
    replace hf : force = false := by simpa using hf
    subst hf
    rw [checkPath_fail s _ hex] at h
    simp at h

theorem join_target_derivation_witness :
    "/w/V001.img" =
        String.mk ("/w/V001_1".toList.takeWhile (fun c => ¬ (c = '_'))) ++ ".img" ∧
      Ev.run (dasdcopyJoinCmd
          (fsExists [("/w/V001_1", [1]), ("/w/V001_2", [2])] "/w/V001.img" && false)
          "/w/V001_1" "/w/V001.img") ∈
        (((joinImages envVol2 ["/w/V001_1", "/w/V001_2"] false
          ⟨[("/w/V001_1", [1]), ("/w/V001_2", [2])], []⟩).2).tr) :=
  join_target_derivation envVol2 "/w/V001_1" ["/w/V001_2"] false
    ⟨[("/w/V001_1", [1]), ("/w/V001_2", [2])], []⟩ "/w/V001.img"
    (by decide) (by decide)

/-- C8: when the multi-fragment join command succeeds, every original
fragment is deleted afterwards; when it exits nonzero, the error
propagates and the filesystem is left exactly as it was, so no fragment is
deleted. -/
theorem join_success_deletes_failure_keeps :
    ∀ (env : Env) (first : String) (rest : List String) (force : Bool) (s : St),
      rest ≠ [] →
      (fsExists s.fs (splitUnderscoreHead first ++ ".img") = true → force = true) →
      (env.runOk (dasdcopyJoinCmd
          (fsExists s.fs (splitUnderscoreHead first ++ ".img") && force)
          first (splitUnderscoreHead first ++ ".img")) = true →
        (joinImages env (first :: rest) force s).1 =
            Except.ok (splitUnderscoreHead first ++ ".img") ∧
          ∀ p ∈ first :: rest,
            fsExists (((joinImages env (first :: rest) force s).2).fs) p = false) ∧
      (env.runOk (dasdcopyJoinCmd
          (fsExists s.fs (splitUnderscoreHead first ++ ".img") && force)
          first (splitUnderscoreHead first ++ ".img")) = false →
        (joinImages env (first :: rest) force s).1 =
            Except.error (Err.toolFailed (dasdcopyJoinCmd
              (fsExists s.fs (splitUnderscoreHead first ++ ".img") && force)
              first (splitUnderscoreHead first ++ ".img"))) ∧
          ((joinImages env (first :: rest) force s).2).fs = s.fs) := by
  intro env first rest force s hne hpass
  constructor
  · intro hro
    unfold joinImages
    try dsimp only
    rw [checkPath_pass s (splitUnderscoreHead first ++ ".img") force hpass]
    try dsimp only
    rw [runTool_ok _ _ _ _ hro]
    try dsimp only
    refine ⟨rfl, ?_⟩
    intro p hp
    exact foldl_stRemove_mem (first :: rest) _ p hp
  · intro hro
    unfold joinImages
    try dsimp only
    rw [checkPath_pass s (splitUnderscoreHead first ++ ".img") force hpass]
    try dsimp only
    rw [runTool_fail _ _ _ _ hro]
    exact ⟨rfl, rfl⟩

theorem join_success_deletes_failure_keeps_witness :
    ((joinImages envVol2 ["/w/V001_1", "/w/V001_2"] false
        ⟨[("/w/V001_1", [1]), ("/w/V001_2", [2])], []⟩).1 =
          Except.ok (splitUnderscoreHead "/w/V001_1" ++ ".img") ∧
      ∀ p ∈ ["/w/V001_1", "/w/V001_2"],
        fsExists (((joinImages envVol2 ["/w/V001_1", "/w/V001_2"] false
          ⟨[("/w/V001_1", [1]), ("/w/V001_2", [2])], []⟩).2).fs) p = false) ∧
      ((joinImages envTapeFail ["/w/V001_1", "/w/V001_2"] false
          ⟨[("/w/V001_1", [1]), ("/w/V001_2", [2])], []⟩).1 =
            Except.error (Err.toolFailed (dasdcopyJoinCmd
              (fsExists [("/w/V001_1", [1]), ("/w/V001_2", [2])] "/w/V001.img" && false)
              "/w/V001_1" "/w/V001.img")) ∧
        ((joinImages envTapeFail ["/w/V001_1", "/w/V001_2"] false
          ⟨[("/w/V001_1", [1]), ("/w/V001_2", [2])], []⟩).2).fs =
          [("/w/V001_1", [1]), ("/w/V001_2", [2])]) :=
  ⟨(join_success_deletes_failure_keeps envVol2 "/w/V001_1" ["/w/V001_2"] false
      ⟨[("/w/V001_1", [1]), ("/w/V001_2", [2])], []⟩ (by decide) (by decide)).1 (by decide),
   (join_success_deletes_failure_keeps envTapeFail "/w/V001_1" ["/w/V001_2"] false
      ⟨[("/w/V001_1", [1]), ("/w/V001_2", [2])], []⟩ (by decide) (by decide)).2 (by decide)⟩

/-- C9 counterexample: converting an image that already carries the
lower-cased target extension makes the derived output path coincide with
the input path, and the post-success deletion of the input removes the
freshly converted output — the output is not retained. -/
theorem convertImage_inplace_counterexample :
    (convertImage envTape "zlib" "CCKD" "X.cckd" true ⟨[("X.cckd", [1])], []⟩).1 =
        Except.ok "X.cckd" ∧
      fsExists (((convertImage envTape "zlib" "CCKD" "X.cckd" true
        ⟨[("X.cckd", [1])], []⟩).2).fs) "X.cckd" = false := by
  decide

/-- C9 amended: the converter command line is built deterministically —
quiet flag always present, compression flag from zlib→-z, bzip2→-bz2,
none→-0, the overwrite flag -r exactly when the destination exists and
overwrite was requested, then -o with the upper-cased format, with input
and output paths last, the output being the input's stem plus the
lower-cased format extension; on success the input image is deleted, and
the converted output is retained provided the output path differs from
the input path (when the input already bears the lower-cased format
extension the two coincide and the final deletion removes the converted
output). -/
theorem conversion_cmd_and_cleanup_amended :
    (∀ (b : Bool) (fmt i o : String),
        dasdcopyConvertCmd b "zlib" fmt i o =
          ["dasdcopy", "-q"] ++ (if b then ["-r"] else []) ++ ["-z"] ++
            ["-o", strToUpper fmt, i, o]) ∧
    (∀ (b : Bool) (fmt i o : String),
        dasdcopyConvertCmd b "bzip2" fmt i o =
          ["dasdcopy", "-q"] ++ (if b then ["-r"] else []) ++ ["-bz2"] ++
            ["-o", strToUpper fmt, i, o]) ∧
    (∀ (b : Bool) (fmt i o : String),
        dasdcopyConvertCmd b "none" fmt i o =
          ["dasdcopy", "-q"] ++ (if b then ["-r"] else []) ++ ["-0"] ++
            ["-o", strToUpper fmt, i, o]) ∧
    (∀ (env : Env) (compression fmt volIn : String) (force : Bool) (s : St),
        (fsExists s.fs (splitextStem volIn ++ "." ++ strToLower fmt) = true → force = true) →
        env.runOk (dasdcopyConvertCmd
          (fsExists s.fs (splitextStem volIn ++ "." ++ strToLower fmt) && force)
          compression fmt volIn (splitextStem volIn ++ "." ++ strToLower fmt)) = true →
        (convertImage env compression fmt volIn force s).1 =
            Except.ok (splitextStem volIn ++ "." ++ strToLower fmt) ∧
          Ev.run (dasdcopyConvertCmd
            (fsExists s.fs (splitextStem volIn ++ "." ++ strToLower fmt) && force)
            compression fmt volIn (splitextStem volIn ++ "." ++ strToLower fmt)) ∈
            (((convertImage env compression fmt volIn force s).2).tr) ∧
          fsExists (((convertImage env compression fmt volIn force s).2).fs) volIn
            = false ∧
          (volIn ≠ splitextStem volIn ++ "." ++ strToLower fmt →
            fsGet (((convertImage env compression fmt volIn force s).2).fs)
              (splitextStem volIn ++ "." ++ strToLower fmt) =
              some (env.outBytes (dasdcopyConvertCmd
                (fsExists s.fs (splitextStem volIn ++ "." ++ strToLower fmt) && force)
                compression fmt volIn
                (splitextStem volIn ++ "." ++ strToLower fmt))))) := by
  refine ⟨?_, ?_, ?_, ?_⟩
  · intro b fmt i o; simp [dasdcopyConvertCmd]
  · intro b fmt i o; simp [dasdcopyConvertCmd]
  · intro b fmt i o; simp [dasdcopyConvertCmd]
  · intro env compression fmt volIn force s hpass hro
    unfold convertImage
    try dsimp only
    rw [checkPath_pass s (splitextStem volIn ++ "." ++ strToLower fmt) force hpass]
    try dsimp only
    rw [runTool_ok _ _ _ _ hro]
    try dsimp only
    refine ⟨rfl, ?_, ?_, ?_⟩
    · simp [stRemove, stWrite, stRun, stCheck, List.mem_append]
    · exact fsExists_fsRemove_self _ _
    · intro hne
      show fsGet (fsRemove (fsWrite _ (splitextStem volIn ++ "." ++ strToLower fmt) _) volIn)
        (splitextStem volIn ++ "." ++ strToLower fmt) = _
      rw [fsGet_fsRemove_ne _ _ _ (fun hc => hne hc.symm), fsGet_fsWrite_self]

theorem conversion_cmd_and_cleanup_amended_witness :
    (convertImage envVol2 "bzip2" "FBA" "X.img" false ⟨[], []⟩).1 = Except.ok "X.fba" ∧
      Ev.run ["dasdcopy", "-q", "-bz2", "-o", "FBA", "X.img", "X.fba"] ∈
        (((convertImage envVol2 "bzip2" "FBA" "X.img" false ⟨[], []⟩).2).tr) ∧
      fsExists (((convertImage envVol2 "bzip2" "FBA" "X.img" false ⟨[], []⟩).2).fs) "X.img"
        = false ∧
      fsGet (((convertImage envVol2 "bzip2" "FBA" "X.img" false ⟨[], []⟩).2).fs) "X.fba"
        = some [7] :=
  have h := conversion_cmd_and_cleanup_amended.2.2.2 envVol2 "bzip2" "FBA" "X.img" false
    ⟨[], []⟩ (by decide) (by decide)
  ⟨h.1, h.2.1, h.2.2.1, h.2.2.2 (by decide)⟩

/-- Models the generator control flow of extractZip: once an entry's
in-process open raises the unsupported-compression condition after some
entries were already yielded, the fallback loop re-yields every entry of
the archive from the beginning via the subprocess. -/
theorem extractZipLoop_pre (all : List ZEntry) :
    ∀ (pre : List ZEntry) (bad : ZEntry) (post : List ZEntry),
      (∀ e ∈ pre, e.inProc.isSome = true) → bad.inProc = none →
      extractZipLoop all (pre ++ bad :: post) =
        pre.map (fun e => (e.name, e.inProc.getD [])) ++ subprocEntries all := by
  intro pre
  induction pre with
  | nil =>
    intro bad post hpre hbad
    simp [extractZipLoop, hbad]
  | cons e pre2 ih =>
    intro bad post hpre hbad
    obtain ⟨b, hb⟩ := Option.isSome_iff_exists.mp (hpre e (List.mem_cons_self e pre2))
    have hstep : extractZipLoop all ((e :: pre2) ++ bad :: post) =
        (e.name, b) :: extractZipLoop all (pre2 ++ bad :: post) := by
      show extractZipLoop all (e :: (pre2 ++ bad :: post)) = _
      rw [extractZipLoop, hb]
    rw [hstep, ih bad post (fun x hx => hpre x (List.mem_cons_of_mem _ hx)) hbad]
    simp [hb]

/-- C10: when the in-process reader raises the unsupported-compression
condition only at a later entry (the probe passed and earlier entries were
already yielded in-process), extractZip re-yields the whole archive via
the subprocess fallback, so every already-yielded entry name appears at
least twice in the produced sequence. -/
theorem extractZip_fallback_reyields :
    ∀ (ar : ZArchive) (pre : List ZEntry) (bad : ZEntry) (post : List ZEntry),
      ar.probeOk = true →
      ar.entries = pre ++ bad :: post →
      (∀ e ∈ pre, e.inProc.isSome = true) →
      bad.inProc = none →
      extractZip ar =
          pre.map (fun e => (e.name, e.inProc.getD [])) ++ subprocEntries ar.entries ∧
        ∀ e ∈ pre,
          2 ≤ ((pre.map (fun e2 => (e2.name, e2.inProc.getD [])) ++
            subprocEntries ar.entries).map Prod.fst).count e.name := by
  intro ar pre bad post hp hent hpre hbad
  constructor
  · unfold extractZip
    rw [hp]
    try dsimp only
    rw [hent]
    exact extractZipLoop_pre (pre ++ bad :: post) pre bad post hpre hbad
  · intro e he
    have h1 : e.name ∈ (pre.map (fun e2 => (e2.name, e2.inProc.getD []))).map Prod.fst := by
      simp only [List.map_map]
      exact List.mem_map_of_mem _ he
    have hmem : e ∈ ar.entries := by
      rw [hent]; exact List.mem_append_left _ he
    have h2 : e.name ∈ (subprocEntries ar.entries).map Prod.fst := by
      simp only [subprocEntries, List.map_map]
      exact List.mem_map_of_mem _ hmem
    rw [List.map_append, List.count_append]
    have c1 := List.one_le_count_iff.mpr h1
    have c2 := List.one_le_count_iff.mpr h2
    omega

/-- A two-entry archive whose probe passes, whose first entry reads
in-process, and whose second entry raises unsupported compression. -/
def arC10 : ZArchive := ⟨true, [⟨"A", some [1], [5]⟩, ⟨"B", none, [6]⟩]⟩

theorem extractZip_fallback_reyields_witness :
    extractZip arC10 = [("A", [1]), ("A", [5]), ("B", [6])] ∧
      2 ≤ (["A", "A", "B"] : List String).count "A" :=
  have h := extractZip_fallback_reyields arC10 [⟨"A", some [1], [5]⟩] ⟨"B", none, [6]⟩ []
    rfl rfl (by decide) rfl
  ⟨h.1, h.2 ⟨"A", some [1], [5]⟩ (by decide)⟩

end Adcdutil
